import Mathlib

/-!
Shallow embedding of the `autoprepare` prepared-statement cache
(`api.go`, the cache core in `autoprepare.go`, and `stmt.go`).

Modelling conventions:
* Machine integers: `uint32` values that influence control flow (the global
  tick `hit`, per-entry `hit`, `psCount`, `psHandles`) are `Nat` updated
  modulo `2^32`; `uint64` statistics are updated modulo `2^64`.
* The Go `map[string]*stmt` is an association list with unique keys; Go's
  random iteration order becomes the list order (the spec leaves scan order
  and sort tie-breaking unspecified).  A torn-down cache (`c.stmt = nil`)
  is `none`; a Go read of a nil map yields "not found", a Go write to a nil
  map panics, and both are modelled as such.
* Prepared statements are numbered by a ghost counter `nextId`; the calls the
  cache issues to the database client (ad-hoc execution, `PrepareContext`,
  `(*Stmt).Close`, execution through a prepared statement) are recorded in a
  ghost `log`, most recent first.  The database's Prepare outcome is a
  parameter `prepOk : String → Bool` of the worker.
* Cancellation tokens are the opaque type `Ctx`: callers pass `Ctx.caller i`;
  `context.WithTimeout(context.Background(), n*time.Second)` is `Ctx.timeout n`.
* Execution is sequentialized: the dispatcher's `acquire`/`release` pair on
  the hot path nets to reading the entry's prepared-statement cell, and the
  worker's `wait()` for handle draining is a no-op because no caller is
  mid-flight between two atomic steps of the model.  The mutex-and-condition
  stmt variant of `stmt.go` is modelled separately (`LocalStmt`) at the
  granularity of its critical sections.
-/

/-- Modulus of a `uint32`. -/
def U32 : Nat := 4294967296

/-- Modulus of a `uint64`. -/
def U64 : Nat := 18446744073709551616

/-- Go `x++` on a `uint32`. -/
def incU32 (n : Nat) : Nat := (n + 1) % U32

/-- Go `atomic.AddUint32(&x, ^uint32(0))`, i.e. a wrapping decrement. -/
def decU32 (n : Nat) : Nat := (n + (U32 - 1)) % U32

/-- Go `atomic.AddUint64(&x, 1)`. -/
def incU64 (n : Nat) : Nat := (n + 1) % U64

/-- Go `len(s)` on a string: its size in bytes. -/
def byteLen (s : String) : Nat := s.utf8ByteSize

/-- The five counters of `SQLStmtCacheStats` (all `uint64`). -/
structure Stats where
  prepared : Nat
  unprepared : Nat
  hits : Nat
  misses : Nat
  skips : Nat
deriving DecidableEq, Repr

/-- One tracked query string (the `stmt` record of the cache core): its decayed
frequency counter (`uint32`) and its prepared-statement cell, `some id` when a
prepared statement is present and `none` when absent.  The per-entry handle
count nets to zero between the sequential steps of the cache-level model, so it
is carried only by the separate `LocalStmt` model of `stmt.go`. -/
structure StmtEntry where
  hit : Nat
  ps : Option Nat
deriving DecidableEq, Repr

/-- A cancellation/deadline token: a caller's token, or a fresh
`context.WithTimeout(context.Background(), secs*time.Second)`. -/
inductive Ctx where
  | caller (id : Nat)
  | timeout (secs : Nat)
deriving DecidableEq, Repr

/-- A call issued to the underlying database client (ghost instrumentation). -/
inductive DbAct where
  | adhoc (q : String) (ctx : Ctx)
  | execPS (id : Nat) (ctx : Ctx)
  | prepare (q : String) (ctx : Ctx) (ok : Bool)
  | closePS (id : Nat)
deriving DecidableEq, Repr

/-- The `SQLStmtCache` state.  `stmt = none` models the nil map left by
`Close()`. `nextId` and `log` are ghost instrumentation (`log` is most recent
first). `wrkStatus` is true between the spawn of the background worker and the
end of its run. -/
structure Cache where
  stmt : Option (List (String × StmtEntry))
  psCount : Nat
  hit : Nat
  wrkStatus : Bool
  stats : Stats
  maxPS : Nat
  maxSqlLen : Nat
  maxStmt : Nat
  wrkThreshold : Nat
  nextId : Nat
  log : List DbAct
deriving DecidableEq, Repr

/-- Assoc-list lookup, modelling `s, ok := c.stmt[query]`. -/
def lookupA (m : List (String × StmtEntry)) (q : String) : Option StmtEntry :=
  match m with
  | [] => none
  | p :: r => if p.1 = q then some p.2 else lookupA r q

/-- Update the (unique) entry of key `q` in place, modelling a store through
the `*stmt` pointer held in the map. -/
def updateA (m : List (String × StmtEntry)) (q : String) (f : StmtEntry → StmtEntry) :
    List (String × StmtEntry) :=
  match m with
  | [] => []
  | p :: r => if p.1 = q then (p.1, f p.2) :: r else p :: updateA r q f

/-- Outcome of `getPS`: the Go function returns a `*stmt` (`entry q` when it
returns the tracked entry of key `q`, `noStmt` for `nil`), or panics on the
write to the nil map of a torn-down cache. -/
inductive GetPSRes where
  | panicked
  | noStmt
  | entry (q : String)
deriving DecidableEq, Repr

/-- The cache core's `getPS` (sequential semantics).  Mirrors, in order: the
`maxPS == 0` guard, the `len(query) > maxSqlLen` skip, the read-locked lookup,
the tick of the global `hit` counter with the worker-spawn CAS pair, and the
write-locked insert of a fresh entry with `hit: 1` when the tracker has room.
On a torn-down cache (`stmt = none`) the insert is a Go write to a nil map:
the call panics. -/
def getPS (c : Cache) (q : String) : Cache × GetPSRes :=
  if c.maxPS = 0 then (c, .noStmt)
  else if c.maxSqlLen < byteLen q then
    ({c with stats := {c.stats with skips := incU64 c.stats.skips}}, .noStmt)
  else
    let found := (lookupA (c.stmt.getD []) q).isSome
    let hit1 := (c.hit + 1) % U32
    let c1 := if c.wrkThreshold < hit1
      then {c with hit := 0, wrkStatus := true}
      else {c with hit := hit1}
    if found then
      ({c1 with stmt := c1.stmt.map (fun m => updateA m q
          (fun e => {e with hit := incU32 e.hit}))}, .entry q)
    else
      match c1.stmt with
      | none =>
        if 0 < c1.maxStmt then (c1, .panicked) else (c1, .noStmt)
      | some m =>
        if m.length < c1.maxStmt then
          ({c1 with stmt := some (m ++ [(q, ⟨1, none⟩)])}, .noStmt)
        else (c1, .noStmt)

/-- What a dispatcher call did: panicked, executed ad-hoc against the database
client, or executed through prepared statement `id`. -/
inductive Outcome where
  | panicked
  | adhoc
  | prepared (id : Nat)
deriving DecidableEq, Repr

/-- The dispatcher skeleton shared by the six public entry points
(`QueryContext` and friends): `getPS`, then `acquire` on the returned entry
(reading its prepared-statement cell), then either the prepared-statement path
(hits counter) or the ad-hoc fallback (misses counter). -/
def queryContext (c : Cache) (ctx : Ctx) (q : String) : Cache × Outcome :=
  match getPS c q with
  | (c1, .panicked) => (c1, .panicked)
  | (c1, .noStmt) =>
    ({ c1 with
       stats := {c1.stats with misses := incU64 c1.stats.misses},
       log := .adhoc q ctx :: c1.log }, .adhoc)
  | (c1, .entry k) =>
    match (lookupA (c1.stmt.getD []) k).bind (·.ps) with
    | none =>
      ({ c1 with
         stats := {c1.stats with misses := incU64 c1.stats.misses},
         log := .adhoc q ctx :: c1.log }, .adhoc)
    | some id =>
      ({ c1 with
         stats := {c1.stats with hits := incU64 c1.stats.hits},
         log := .execPS id ctx :: c1.log }, .prepared id)

/-- `Close()`: under the write lock, for every entry holding a prepared
statement, clear it, wait for its handles to drain, decrement `psCount`
(wrapping `uint32` add of `^uint32(0)`), bump `Unprepared` and close the
statement; finally set the map to nil.  A second call sees the nil map and
returns at once. -/
def close (c : Cache) : Cache :=
  match c.stmt with
  | none => c
  | some m =>
    let c' := m.foldl (fun acc p =>
      match p.2.ps with
      | some id =>
        { acc with
          psCount := decU32 acc.psCount,
          stats := {acc.stats with unprepared := incU64 acc.stats.unprepared},
          log := .closePS id :: acc.log }
      | none => acc) c
    {c' with stmt := none}

/-- One iteration of `getCandidates`' scan, acting on the victim component of
the accumulator: a prepared entry replaces the current victim when its `hit`
is strictly smaller (so ties keep the earlier entry in scan order). -/
def vStep (v : Option (String × StmtEntry)) (p : String × StmtEntry) :
    Option (String × StmtEntry) :=
  if p.2.ps.isSome then
    match v with
    | none => some p
    | some w => if p.2.hit < w.2.hit then some p else some w
  else v

/-- One iteration of `getCandidates`' scan, acting on the replacement
component: an absent entry replaces the current replacement when its `hit` is
strictly larger (ties keep the earlier entry in scan order). -/
def rStep (r : Option (String × StmtEntry)) (p : String × StmtEntry) :
    Option (String × StmtEntry) :=
  if p.2.ps.isSome then r
  else
    match r with
    | none => some p
    | some w => if w.2.hit < p.2.hit then some p else some w

/-- The single read-locked scan of `getCandidates`: one pass over the tracker
in scan order, updating the running victim (among prepared entries) and the
running replacement (among absent entries) as the loop body does. -/
def scanCandidates (l : List (String × StmtEntry)) :
    Option (String × StmtEntry) × Option (String × StmtEntry) :=
  l.foldl (fun a p => (vStep a.1 p, rStep a.2 p)) (none, none)

/-- `getCandidates`: the scan followed by the two do-nothing guards — a victim
with positive `hit` but no replacement, or a victim whose `hit` is at least
the replacement's, suppress both candidates. -/
def getCandidates (l : List (String × StmtEntry)) :
    Option (String × StmtEntry) × Option (String × StmtEntry) :=
  match scanCandidates l with
  | (some v, none) => if 0 < v.2.hit then (none, none) else (some v, none)
  | (some v, some r) =>
    if r.2.hit ≤ v.2.hit then (none, none) else (some v, some r)
  | (v, r) => (v, r)

/-- Phase 2 of the worker (`wrk` lines: `if victim != nil && psCount >= maxPS`):
read the victim's prepared statement, clear the cell, wait for handles to
drain, decrement `psCount` (wrapping), bump `Unprepared` and close the
statement.  The `none` inner branch is unreachable (`getCandidates` only
returns prepared victims; Go would dereference a nil statement there). -/
def evictPhase (c : Cache) (victim : Option (String × StmtEntry)) : Cache :=
  match victim with
  | none => c
  | some (vk, _) =>
    if c.maxPS ≤ c.psCount then
      match (lookupA (c.stmt.getD []) vk).bind (·.ps) with
      | some id =>
        { c with
          stmt := c.stmt.map (fun m => updateA m vk (fun e => {e with ps := none})),
          psCount := decU32 c.psCount,
          stats := {c.stats with unprepared := incU64 c.stats.unprepared},
          log := .closePS id :: c.log }
      | none => c
    else c

/-- Phase 3 of the worker (`if replacement != nil && psCount < maxPS`): a
`PrepareContext` against the database with a fresh 3-second deadline token; on
success store the statement in the entry, increment `psCount` and the
`Prepared` statistic; on failure the error is swallowed and nothing changes. -/
def preparePhase (prepOk : String → Bool) (c : Cache)
    (repl : Option (String × StmtEntry)) : Cache :=
  match repl with
  | none => c
  | some (rk, _) =>
    if c.psCount < c.maxPS then
      let ok := prepOk rk
      let c1 := {c with log := .prepare rk (Ctx.timeout 3) ok :: c.log}
      if ok then
        { c1 with
          stmt := c1.stmt.map (fun m => updateA m rk (fun e => {e with ps := some c.nextId})),
          psCount := incU32 c1.psCount,
          stats := {c1.stats with prepared := incU64 c1.stats.prepared},
          nextId := c.nextId + 1 }
      else c1
    else c

/-- `updateHits`: halve every entry's `hit` (the compare-and-swap loop of the
source commits exactly one halving per entry). -/
def updateHits (c : Cache) : Cache :=
  {c with stmt := c.stmt.map (List.map (fun p => (p.1, {p.2 with hit := p.2.hit / 2})))}

/-- One record of `dropStmts`' collection slice (`_stmt`). -/
structure DropRec where
  hit : Nat
  q : String
deriving DecidableEq, Repr

/-- Insertion into a list sorted ascending by `hit`. -/
def insertByHit (r : DropRec) : List DropRec → List DropRec
  | [] => [r]
  | x :: xs => if r.hit ≤ x.hit then r :: x :: xs else x :: insertByHit r xs

/-- A sort of the collection slice ascending by `hit`, modelling
`sort.Slice(stmts, stmts[i].hit < stmts[j].hit)` (the source's tie order is
unspecified; no property proved here depends on it). -/
def sortByHit : List DropRec → List DropRec
  | [] => []
  | x :: xs => insertByHit x (sortByHit xs)

/-- The loop extending `victims` over every further record with zero `hit`. -/
def extendZeros (l : List DropRec) (v : Nat) : Nat :=
  v + ((l.drop v).takeWhile (fun r => r.hit == 0)).length

/-- Phase 4b, `dropStmts`, exactly as the source has it: skip when the tracker
holds fewer than `maxStmt/2` entries; otherwise build the collection slice as
`make([]_stmt, len(c.stmt))` — `len(c.stmt)` zero-valued placeholder records
with empty `q` — and **append** one record per absent entry after them; set
`victims := len(stmts) - maxStmt/2`; sort ascending by `hit`; extend `victims`
over the remaining zero-`hit` records; delete the keys of the first `victims`
records from the map (deleting the empty-string key of a placeholder is a
no-op unless `""` is itself tracked).  On a torn-down cache (`stmt = none`,
nil map) `len` is 0: with `maxStmt ≥ 1` the guard returns at once, and with
`maxStmt = 0` the slice is empty and nothing is deleted, so the state is
returned unchanged either way. -/
def dropStmts (c : Cache) : Cache :=
  match c.stmt with
  | none => c
  | some m =>
    if m.length < c.maxStmt / 2 then c
    else
      let placeholders : List DropRec := List.replicate m.length ⟨0, ""⟩
      let collected : List DropRec :=
        (m.filter (fun p => p.2.ps = none)).map (fun p => ⟨p.2.hit, p.1⟩)
      let stmts := placeholders ++ collected
      let victims := stmts.length - c.maxStmt / 2
      let sorted := sortByHit stmts
      let victims := extendZeros sorted victims
      let toDelete := (sorted.take victims).map (·.q)
      {c with stmt := some (m.filter (fun p => ¬ toDelete.contains p.1))}

/-- The background worker `wrk`: choose candidates under the read lock, evict,
prepare (parameterized by the database's Prepare outcome `prepOk`), decay the
counters, prune. -/
def wrk (prepOk : String → Bool) (c : Cache) : Cache :=
  match getCandidates (c.stmt.getD []) with
  | (v, r) => dropStmts (updateHits (preparePhase prepOk (evictPhase c v) r))

/-- The number of tracker entries whose prepared statement is present. -/
def presentCount (c : Cache) : Nat :=
  ((c.stmt.getD []).filter (fun p => p.2.ps.isSome)).length

/-- Option mutators accepted by `New` (the Go `int` argument is an `Int`). -/
inductive CacheOpt where
  | withMaxPreparedStmt (max : Int)
  | withMaxStmt (max : Int)
  | withMaxQueryLen (max : Int)
deriving DecidableEq, Repr

/-- The cache `New` builds before options are applied: the documented defaults
and an empty tracker. -/
def defaultCache : Cache where
  stmt := some []
  psCount := 0
  hit := 0
  wrkStatus := false
  stats := ⟨0, 0, 0, 0, 0⟩
  maxPS := 16
  maxSqlLen := 4096
  maxStmt := 1024
  wrkThreshold := 5000
  nextId := 0
  log := []

/-- Application of one option mutator, with the validation of the source:
`WithMaxPreparedStmt` rejects values above `1<<12` or not above 0,
`WithMaxStmt` values above `1<<16` or below 128, `WithMaxQueryLen` values
above `1<<20` or below 32. -/
def applyOpt (c : Cache) : CacheOpt → Except String Cache
  | .withMaxPreparedStmt m =>
    if 4096 < m then .error "WithMaxPreparedStmt should be no more than 4096"
    else if m ≤ 0 then .error "WithMaxPreparedStmt should be more than 0"
    else .ok {c with maxPS := m.toNat}
  | .withMaxStmt m =>
    if 65536 < m then .error "WithMaxStmt should be no more than 65536"
    else if m < 128 then .error "WithMaxStmt should be at least 128"
    else .ok {c with maxStmt := m.toNat}
  | .withMaxQueryLen m =>
    if 1048576 < m then .error "WithMaxQueryLen should be no more than 1048576"
    else if m < 32 then .error "WithMaxQueryLen should be at least 32"
    else .ok {c with maxSqlLen := m.toNat}

/-- `New`: the defaults, then the user-supplied options in order, failing on
the first option that errors (the finalizer registration has no observable
state). -/
def mkNew (opts : List CacheOpt) : Except String Cache :=
  opts.foldlM applyOpt defaultCache

/-- The inclusive validation range of each option, as the spec states it. -/
def OptInRange : CacheOpt → Prop
  | .withMaxPreparedStmt m => 1 ≤ m ∧ m ≤ 4096
  | .withMaxStmt m => 128 ≤ m ∧ m ≤ 65536
  | .withMaxQueryLen m => 32 ≤ m ∧ m ≤ 1048576

instance : DecidablePred OptInRange := fun o => by
  cases o <;> (unfold OptInRange; infer_instance)

/-- One sequential step of the system: a dispatcher call (any of the six entry
points, which share the `queryContext` skeleton), the run of a previously
spawned background worker, or `Close`. -/
inductive Step where
  | query (ctx : Ctx) (q : String)
  | runWrk
  | closeCache
deriving DecidableEq, Repr

/-- Execution of one step.  A panicking dispatcher call aborts the run
(`none`); `runWrk` does nothing unless a worker was actually spawned
(`wrkStatus`), and the spawner's deferred store clears the flag when the
worker returns. -/
def runStep (prepOk : String → Bool) (c : Cache) : Step → Option Cache
  | .query ctx q =>
    match queryContext c ctx q with
    | (_, .panicked) => none
    | (c', _) => some c'
  | .runWrk => some (if c.wrkStatus then {wrk prepOk c with wrkStatus := false} else c)
  | .closeCache => some (close c)

/-- Execution of a list of steps in order. -/
def runTrace (prepOk : String → Bool) (c : Cache) : List Step → Option Cache
  | [] => some c
  | s :: r =>
    match runStep prepOk c s with
    | none => none
    | some c' => runTrace prepOk c' r

/-- Reachability: some sequential schedule of dispatcher calls, worker runs
and teardown leads from `c0` to `c` without panicking. -/
def ReachableFrom (prepOk : String → Bool) (c0 c : Cache) : Prop :=
  ∃ tr : List Step, runTrace prepOk c0 tr = some c

/-- The mutex-and-condition-variable statement record of `stmt.go`: the
prepared-statement cell `ps`, the count `psHandles` of goroutines using it
(`uint32`), the frequency counter and the query string.  The mutex serializes
`acquire`, `release` and the body of `close`, so each is modelled as one
atomic action on this state. -/
structure LocalStmt where
  ps : Option Nat
  psHandles : Nat
  hit : Nat
  q : String
deriving DecidableEq, Repr

/-- `(*stmt).acquire` of `stmt.go` (non-nil receiver): under the lock, read
`ps`; when present, register a handle; return what was read. -/
def LocalStmt.acquire (s : LocalStmt) : Option Nat × LocalStmt :=
  match s.ps with
  | none => (none, s)
  | some id => (some id, {s with psHandles := incU32 s.psHandles})

/-- `(*stmt).release`: under the lock, drop a handle (wrapping `uint32`
decrement); reaching zero wakes the closer (no further state effect). -/
def LocalStmt.release (s : LocalStmt) : LocalStmt :=
  {s with psHandles := decU32 s.psHandles}

/-- The critical section of `(*stmt).close`: the `for psHandles > 0 {
cond.Wait() }` loop leaves the closer blocked (modelled as `none`) until the
handle count is zero; only then does it take the statement out of the cell,
publish absence, and hand the statement back to be closed outside the lock. -/
def LocalStmt.closeCS (s : LocalStmt) : Option (Option Nat × LocalStmt) :=
  if s.psHandles = 0 then some (s.ps, {s with ps := none}) else none

/-- `(*stmt).put` of `stmt.go`: panics on nil, otherwise stores the statement
(modelled for non-nil arguments only). -/
def LocalStmt.putStmt (s : LocalStmt) (id : Nat) : LocalStmt :=
  {s with ps := some id}

/-- A database client whose Prepare always succeeds. -/
def pAll : String → Bool := fun _ => true

/-- The caller token used by the concrete schedules. -/
def ctx0 : Ctx := Ctx.caller 0

/-- Distinct short query keys. -/
def qname (i : Nat) : String := "q" ++ toString i

/-- A cache built by `New(db, WithMaxStmt(128))`: defaults except the smallest
accepted tracker bound, so pruning engages at 64 tracked entries. -/
def c5start : Cache := {defaultCache with maxStmt := 128}

/-- Schedule segment A: track the empty query string, then 63 further keys
(64 dispatcher calls, all misses that insert fresh entries). -/
def trA : List Step :=
  Step.query ctx0 "" :: (List.range 63).map (fun i => Step.query ctx0 (qname i))

/-- Schedule segment B: pump the empty query 4936 more times, leaving the
global tick at exactly `wrkThreshold`. -/
def trB : List Step := List.replicate 4936 (Step.query ctx0 "")

/-- A concrete schedule: segments A and B, then the 5001st dispatcher call,
which crosses `wrkThreshold` and spawns the worker, then the worker's run.
The worker promotes `""` (the hottest absent entry); pruning then deletes the
whole tracker — including the entry for `""`, which holds the freshly
prepared statement, because the placeholder records of `dropStmts`'
collection slice all carry the empty-string key. -/
def c5trace : List Step := trA ++ (trB ++ [Step.query ctx0 "", Step.runWrk])

/-- The same schedule followed by teardown. -/
def c9trace : List Step := c5trace ++ [Step.closeCache]

/-- The tracker contents after segment A. -/
def entsA : List (String × StmtEntry) :=
  ("", ⟨1, none⟩) :: (List.range 63).map (fun i => (qname i, ⟨1, none⟩))

/-- The database-call log after segment A (most recent first). -/
def lgA : List DbAct :=
  ((List.range 63).reverse.map (fun i => DbAct.adhoc (qname i) ctx0)) ++
    [DbAct.adhoc "" ctx0]

/-- The cache after segment A. -/
def cA : Cache :=
  { c5start with
    stmt := some entsA
    hit := 64
    stats := {c5start.stats with misses := 64}
    log := lgA }

/-- The cache after segment B: only the tick, the `""` entry's counter, the
miss counter and the log have moved. -/
def cB : Cache :=
  { cA with
    hit := 5000
    stmt := some (("", ⟨4937, none⟩) :: (List.range 63).map (fun i => (qname i, ⟨1, none⟩)))
    stats := {cA.stats with misses := 5000}
    log := List.replicate 4936 (DbAct.adhoc "" ctx0) ++ lgA }

/-- The cache after the 5001st dispatcher call: the tick was reset and the
worker spawned. -/
def cC : Cache :=
  { cB with
    hit := 0
    wrkStatus := true
    stmt := some (("", ⟨4938, none⟩) :: (List.range 63).map (fun i => (qname i, ⟨1, none⟩)))
    stats := {cB.stats with misses := 5001}
    log := DbAct.adhoc "" ctx0 :: cB.log }

/-- The cache after the worker's run: `""` was prepared (statement 0), the
decayed tracker was pruned away entirely — `""` included, though it holds the
prepared statement — so `psCount = 1` while no tracked entry is prepared. -/
def cD : Cache :=
  { cC with
    wrkStatus := false
    stmt := some []
    psCount := 1
    stats := {cC.stats with prepared := 1}
    nextId := 1
    log := DbAct.prepare "" (Ctx.timeout 3) true :: cC.log }

/-- The cache after teardown of `cD`: the tracker map is nil, yet the one
prepared statement ever created was never closed (`unprepared = 0 <
prepared = 1`). -/
def cE : Cache := {cD with stmt := none}

/-- A `dropStmts` input exhibiting the placeholder bug: the tracker holds the
empty-string key with a prepared statement plus 64 absent entries with
distinct positive counters. -/
def entsC2 : List (String × StmtEntry) :=
  ("", ⟨5, some 0⟩) :: (List.range 64).map (fun i => (qname i, ⟨i + 1, none⟩))

/-- The cache state around `entsC2` (a `New(db, WithMaxStmt(128))` cache whose
worker has prepared the empty query). -/
def cC2 : Cache := { defaultCache with maxStmt := 128, stmt := some entsC2, psCount := 1 }

/-- A cache built by `New(db, WithMaxQueryLen(32))`. -/
def c3start : Cache := {defaultCache with maxSqlLen := 32}

/-- A 33-byte query, one byte over `c3start`'s limit. -/
def q33 : String := "aaaaaaaaaaaaaaaaaaaaaaaaaaaaaaaaa"

/-- Concrete trackers for the C6 witness. -/
def l6 : List (String × StmtEntry) := [("a", ⟨1, some 0⟩), ("b", ⟨5, none⟩)]

def l7 : List (String × StmtEntry) := [("a", ⟨5, some 0⟩), ("b", ⟨1, none⟩)]

def l8 : List (String × StmtEntry) := [("a", ⟨2, some 0⟩)]

/-- A database client whose Prepare always fails. -/
def pNone : String → Bool := fun _ => false

theorem byteLen_nil : byteLen "" = 0 := rfl

theorem runTrace_append (p : String → Bool) (t1 t2 : List Step) :
    ∀ c : Cache, runTrace p c (t1 ++ t2) =
      (runTrace p c t1).bind (fun c' => runTrace p c' t2) := by
  induction t1 with
  | nil => intro c; simp [runTrace]
  | cons s r ih =>
    intro c
    simp only [List.cons_append, runTrace]
    cases runStep p c s with
    | none => simp
    | some c' => simp [ih]

theorem pumpStep (p : String → Bool) (c : Cache) (e : StmtEntry)
    (rest : List (String × StmtEntry))
    (hstmt : c.stmt = some (("", e) :: rest))
    (hps : c.maxPS ≠ 0)
    (hhit : c.hit + 1 ≤ c.wrkThreshold)
    (hthr : c.wrkThreshold < U32)
    (hehit : e.hit + 1 < U32)
    (heps : e.ps = none)
    (hmiss : c.stats.misses + 1 < U64) :
    runStep p c (Step.query ctx0 "") =
      some { c with
             hit := c.hit + 1,
             stmt := some (("", {e with hit := e.hit + 1}) :: rest),
             stats := {c.stats with misses := c.stats.misses + 1},
             log := DbAct.adhoc "" ctx0 :: c.log } := by
  have h1 : (c.hit + 1) % U32 = c.hit + 1 :=
    Nat.mod_eq_of_lt (Nat.lt_of_le_of_lt hhit hthr)
  have h2 : ¬ (c.wrkThreshold < c.hit + 1) := Nat.not_lt.mpr hhit
  have h3 : incU32 e.hit = e.hit + 1 := Nat.mod_eq_of_lt hehit
  have h4 : incU64 c.stats.misses = c.stats.misses + 1 := Nat.mod_eq_of_lt hmiss
  simp only [runStep, queryContext, getPS, byteLen_nil, hstmt, h1, h2, if_neg hps,
    if_false, Nat.not_lt_zero, Option.getD_some, lookupA, if_pos rfl,
    Option.isSome_some, if_true, Option.map_some, updateA, h3, h4, heps,
    Option.bind_some, Option.bind_none]
  simp [updateA, h3, heps]

theorem runTrace_pump (p : String → Bool) :
    ∀ (n : Nat) (c : Cache) (e : StmtEntry) (rest : List (String × StmtEntry)),
    c.stmt = some (("", e) :: rest) →
    c.maxPS ≠ 0 →
    c.hit + n ≤ c.wrkThreshold →
    c.wrkThreshold < U32 →
    e.hit + n < U32 →
    e.ps = none →
    c.stats.misses + n < U64 →
    runTrace p c (List.replicate n (Step.query ctx0 "")) =
      some { c with
             hit := c.hit + n,
             stmt := some (("", {e with hit := e.hit + n}) :: rest),
             stats := {c.stats with misses := c.stats.misses + n},
             log := List.replicate n (DbAct.adhoc "" ctx0) ++ c.log } := by
  intro n
  induction n with
  | zero =>
    intro c e rest hstmt hps hhit hthr hehit heps hmiss
    cases c with
    | mk stmt psCount hit wrkStatus stats maxPS maxSqlLen maxStmt wrkThreshold nextId log =>
      cases e with
      | mk ehit eps =>
        simp_all [runTrace]
  | succ n ih =>
    intro c e rest hstmt hps hhit hthr hehit heps hmiss
    have step := pumpStep p c e rest hstmt hps (by omega) hthr (by omega) heps (by omega)
    rw [List.replicate_succ, runTrace, step]
    have ihres := ih { c with
        hit := c.hit + 1,
        stmt := some (("", {e with hit := e.hit + 1}) :: rest),
        stats := {c.stats with misses := c.stats.misses + 1},
        log := DbAct.adhoc "" ctx0 :: c.log }
      ({e with hit := e.hit + 1}) rest rfl hps
      (by show c.hit + 1 + n ≤ c.wrkThreshold; omega) hthr
      (by show e.hit + 1 + n < U32; omega) heps
      (by show c.stats.misses + 1 + n < U64; omega)
    dsimp only
    rw [ihres]
    cases c with
    | mk stmt psCount hit wrkStatus stats maxPS maxSqlLen maxStmt wrkThreshold nextId log =>
      cases stats with
      | mk sp su sh sm ss =>
        simp [List.replicate_succ', Nat.add_assoc, Nat.add_comm, Nat.add_left_comm]

set_option maxRecDepth 4000

theorem evalA : runTrace pAll c5start trA = some cA := by rfl

theorem evalB : runTrace pAll cA trB = some cB := by
  rw [show trB = List.replicate 4936 (Step.query ctx0 "") from rfl,
    runTrace_pump pAll 4936 cA ⟨1, none⟩ _ rfl (by decide) (by decide) (by decide)
      (by decide) rfl (by decide)]
  rfl

theorem runTrace_cons (p : String → Bool) (c : Cache) (s : Step) (r : List Step) :
    runTrace p c (s :: r) =
      match runStep p c s with
      | none => none
      | some c' => runTrace p c' r := rfl

theorem stepC : runStep pAll cB (Step.query ctx0 "") = some cC := by rfl

theorem stepD : runStep pAll cC Step.runWrk = some cD := by rfl

theorem stepE : runStep pAll cD Step.closeCache = some cE := by rfl

theorem runTrace_cons_some (p : String → Bool) (c c' : Cache) (s : Step) (r : List Step)
    (h : runStep p c s = some c') : runTrace p c (s :: r) = runTrace p c' r := by
  rw [runTrace_cons, h]

theorem evalC5 : runTrace pAll c5start c5trace = some cD := by
  refine Eq.trans (runTrace_append pAll trA (trB ++ [Step.query ctx0 "", Step.runWrk]) c5start) ?_
  rw [evalA, Option.some_bind]
  refine Eq.trans (runTrace_append pAll trB [Step.query ctx0 "", Step.runWrk] cA) ?_
  rw [evalB, Option.some_bind,
    runTrace_cons_some pAll cB cC (Step.query ctx0 "") [Step.runWrk] stepC,
    runTrace_cons_some pAll cC cD Step.runWrk [] stepD]
  rfl

theorem evalC9 : runTrace pAll c5start c9trace = some cE := by
  refine Eq.trans (runTrace_append pAll c5trace [Step.closeCache] c5start) ?_
  rw [evalC5, Option.some_bind,
    runTrace_cons_some pAll cD cE Step.closeCache [] stepE]
  rfl

/-- C2: pruning is claimed to delete only absent entries (the lowest-`hits`
ones beyond `maxStmt/2`, plus zero-`hits` ones) and never a prepared entry.
On `cC2` — 65 entries, 64 of them absent with positive `hits`, none with zero
`hits` — that policy deletes nothing; the code instead deletes exactly the
prepared entry `""`, because the 65 zero-valued placeholder records of the
collection slice sort to the front, land inside the victim prefix, and each
deletes the empty-string key. -/
theorem claim_C2 :
    (lookupA entsC2 "").bind (fun e => e.ps) = some 0 ∧
    lookupA ((dropStmts cC2).stmt.getD []) "" = none ∧
    ((List.range 64).all
      (fun i => (lookupA ((dropStmts cC2).stmt.getD []) (qname i)).isSome)) = true := by
  refine ⟨rfl, by decide, by decide⟩

/-- C5: the accounting invariant "number of prepared entries equals
`preparedCount`" fails on a reachable state: the schedule `c5trace` leads a
`New(db, WithMaxStmt(128))` cache to a state with `psCount = 1` and no
prepared entry, the prepared `""` entry having been pruned away. -/
theorem claim_C5 :
    mkNew [CacheOpt.withMaxStmt 128] = Except.ok c5start ∧
    ∃ c : Cache, ReachableFrom pAll c5start c ∧ presentCount c ≠ c.psCount :=
  ⟨rfl, cD, ⟨c5trace, evalC5⟩, by decide⟩

/-- C9: `Close` is idempotent (second conjunct of the claim's first half
holds), but a construction/teardown round trip does not close every prepared
statement the cache created: after `c9trace` the cache is torn down while the
statement prepared for `""` was never closed — `unprepared = 0 < 1 =
prepared`. -/
theorem claim_C9 :
    (∀ c : Cache, close (close c) = close c) ∧
    ∃ c : Cache, ReachableFrom pAll c5start c ∧ c.stmt = none ∧
      c.stats.unprepared < c.stats.prepared := by
  constructor
  · have hnone : ∀ d : Cache, d.stmt = none → close d = d := by
      intro d hd
      simp [close, hd]
    intro c
    cases hc : c.stmt with
    | none => rw [hnone c hc, hnone c hc]
    | some m =>
      have h2 : (close c).stmt = none := by
        simp [close, hc]
      rw [hnone _ h2]
  · exact ⟨cE, ⟨c9trace, evalC9⟩, rfl, by decide⟩

theorem getPS_skip (c : Cache) (q : String) (hps : ¬ c.maxPS = 0)
    (hlen : c.maxSqlLen < byteLen q) :
    getPS c q = ({c with stats := {c.stats with skips := incU64 c.stats.skips}}, .noStmt) := by
  simp [getPS, hps, hlen]

theorem getPS_closed (c : Cache) (q : String) (hstmt : c.stmt = none)
    (hps : ¬ c.maxPS = 0) (hms : 0 < c.maxStmt) (hlen : ¬ c.maxSqlLen < byteLen q) :
    (getPS c q).2 = GetPSRes.panicked := by
  simp only [getPS, if_neg hps, if_neg hlen, hstmt, Option.getD_none]
  by_cases hthr : c.wrkThreshold < (c.hit + 1) % U32
  · simp [lookupA, hthr, hms]
  · simp [lookupA, hthr, hms]

theorem getPS_miss (c : Cache) (m : List (String × StmtEntry)) (q : String)
    (hstmt : c.stmt = some m) (hlook : lookupA m q = none)
    (hps : ¬ c.maxPS = 0) (hlen : ¬ c.maxSqlLen < byteLen q) :
    (getPS c q).2 = GetPSRes.noStmt ∧
    (getPS c q).1.stats = c.stats ∧
    (getPS c q).1.log = c.log ∧
    (m.length < c.maxStmt → (getPS c q).1.stmt = some (m ++ [(q, ⟨1, none⟩)])) ∧
    (¬ m.length < c.maxStmt → (getPS c q).1.stmt = some m) := by
  simp only [getPS, if_neg hps, if_neg hlen, hstmt, Option.getD_some, hlook,
    Option.isSome_none, Bool.false_eq_true, if_false]
  by_cases hthr : c.wrkThreshold < (c.hit + 1) % U32
  · by_cases hroom : m.length < c.maxStmt
    · simp [hthr, hroom]
    · simp [hthr, hroom]
  · by_cases hroom : m.length < c.maxStmt
    · simp [hthr, hroom]
    · simp [hthr, hroom]

theorem lookupA_append_self (m : List (String × StmtEntry)) (q : String) (e : StmtEntry)
    (h : lookupA m q = none) : lookupA (m ++ [(q, e)]) q = some e := by
  induction m with
  | nil => simp [lookupA]
  | cons p r ih =>
    by_cases hpq : p.1 = q
    · simp [lookupA, hpq] at h
    · simp only [List.cons_append, lookupA, if_neg hpq] at h ⊢
      exact ih h

/-- C1 (amended): once `Close()` has completed (`stmt` is the nil map), a
dispatcher call whose query is longer than `maxQueryLen` still degrades to
ad-hoc (incrementing `skips` and `misses`, never touching the tracker), but
every call whose query is within `maxQueryLen` panics: the nil-map lookup
misses, `len(nil) = 0 < maxStmt` admits an insert, and the insert is a write
to a nil map. -/
theorem claim_C1 : ∀ (c : Cache) (ctx : Ctx) (q : String),
    c.stmt = none → 0 < c.maxPS → 0 < c.maxStmt →
    ((c.maxSqlLen < byteLen q →
        queryContext c ctx q =
          ({ c with
             stats := {c.stats with skips := incU64 c.stats.skips, misses := incU64 c.stats.misses},
             log := DbAct.adhoc q ctx :: c.log }, Outcome.adhoc)) ∧
     (byteLen q ≤ c.maxSqlLen → (queryContext c ctx q).2 = Outcome.panicked)) := by
  intro c ctx q hstmt hps hms
  have hps' : ¬ (c.maxPS = 0) := Nat.pos_iff_ne_zero.mp hps
  constructor
  · intro hlen
    simp [queryContext, getPS_skip c q hps' hlen]
  · intro hlen
    have hlen' : ¬ (c.maxSqlLen < byteLen q) := Nat.not_lt.mpr hlen
    have h2 := getPS_closed c q hstmt hps' hms hlen'
    rcases hg : getPS c q with ⟨c1, r⟩
    rw [hg] at h2
    simp only at h2
    subst h2
    simp [queryContext, hg]

/-- C1 counterexample: the claim says no dispatcher call after teardown may
panic; on a defaults-built cache, a `QueryContext` with an ordinary short
query right after `Close()` panics. -/
theorem claim_C1_counterexample :
    mkNew [] = Except.ok defaultCache ∧
    (queryContext (close defaultCache) ctx0 "SELECT 1").2 = Outcome.panicked :=
  ⟨rfl, by decide⟩

theorem claim_C1_witness :
    ((close defaultCache).maxSqlLen < byteLen "SELECT 2" →
      queryContext (close defaultCache) ctx0 "SELECT 2" =
        ({ close defaultCache with
           stats := {(close defaultCache).stats with skips := incU64 (close defaultCache).stats.skips, misses := incU64 (close defaultCache).stats.misses},
           log := DbAct.adhoc "SELECT 2" ctx0 :: (close defaultCache).log }, Outcome.adhoc)) ∧
    (byteLen "SELECT 2" ≤ (close defaultCache).maxSqlLen →
      (queryContext (close defaultCache) ctx0 "SELECT 2").2 = Outcome.panicked) :=
  claim_C1 (close defaultCache) ctx0 "SELECT 2" rfl (by decide) (by decide)

/-- C3 (amended): a dispatcher call whose query exceeds `maxQueryLen` executes
ad-hoc and is never inserted into the tracker, as claimed — but it increments
both `skips` (in `getPS`) and `misses` (in the dispatcher's ad-hoc fallback),
so `skips` is not the only outcome counter that changes. -/
theorem claim_C3 : ∀ (c : Cache) (ctx : Ctx) (q : String),
    0 < c.maxPS → c.maxSqlLen < byteLen q →
    queryContext c ctx q =
      ({ c with
         stats := {c.stats with skips := incU64 c.stats.skips, misses := incU64 c.stats.misses},
         log := DbAct.adhoc q ctx :: c.log }, Outcome.adhoc) := by
  intro c ctx q hps hlen
  have hps' : ¬ (c.maxPS = 0) := Nat.pos_iff_ne_zero.mp hps
  simp [queryContext, getPS_skip c q hps' hlen]

/-- C3 counterexample: the claim says `skips` is the only outcome counter the
call changes; on a `WithMaxQueryLen(32)` cache, one 33-byte query also moves
`misses` from 0 to 1. -/
theorem claim_C3_counterexample :
    mkNew [CacheOpt.withMaxQueryLen 32] = Except.ok c3start ∧
    c3start.maxSqlLen < byteLen q33 ∧
    c3start.stats.misses = 0 ∧
    (queryContext c3start ctx0 q33).1.stats.misses = 1 :=
  ⟨rfl, by decide, rfl, by decide⟩

theorem claim_C3_witness :
    queryContext c3start ctx0 q33 =
      ({ c3start with
         stats := {c3start.stats with skips := incU64 c3start.stats.skips, misses := incU64 c3start.stats.misses},
         log := DbAct.adhoc q33 ctx0 :: c3start.log }, Outcome.adhoc) :=
  claim_C3 c3start ctx0 q33 (by decide) (by decide)

/-- C4: with the mutex-and-condition protocol of `stmt.go`, an acquire that
observes an absent prepared statement returns none and registers nothing; and
the closer's critical section completes only in a state with zero outstanding
handles, handing back the statement for the actual `Close` with absence
already published, so any later acquire returns none. -/
theorem claim_C4 : ∀ s : LocalStmt,
    (s.ps = none → s.acquire = (none, s)) ∧
    (∀ (ps : Option Nat) (s' : LocalStmt), s.closeCS = some (ps, s') →
      s.psHandles = 0 ∧ ps = s.ps ∧ s'.ps = none ∧ s'.acquire = (none, s')) := by
  intro s
  constructor
  · intro h
    simp [LocalStmt.acquire, h]
  · intro ps s' h
    unfold LocalStmt.closeCS at h
    by_cases hz : s.psHandles = 0
    · rw [if_pos hz] at h
      simp only [Option.some.injEq, Prod.mk.injEq] at h
      obtain ⟨hps, hs'⟩ := h
      refine ⟨hz, hps.symm, ?_, ?_⟩
      · rw [← hs']
      · rw [← hs']
        simp [LocalStmt.acquire]
    · rw [if_neg hz] at h
      exact absurd h (by simp)

theorem claim_C4_witness :
    ((⟨none, 0, 7, "k"⟩ : LocalStmt).acquire = (none, ⟨none, 0, 7, "k"⟩)) ∧
    ((⟨some 3, 0, 7, "k"⟩ : LocalStmt).psHandles = 0 ∧
      some 3 = (⟨some 3, 0, 7, "k"⟩ : LocalStmt).ps ∧
      (⟨none, 0, 7, "k"⟩ : LocalStmt).ps = none ∧
      (⟨none, 0, 7, "k"⟩ : LocalStmt).acquire = (none, ⟨none, 0, 7, "k"⟩)) :=
  ⟨(claim_C4 ⟨none, 0, 7, "k"⟩).1 rfl,
   (claim_C4 ⟨some 3, 0, 7, "k"⟩).2 (some 3) ⟨none, 0, 7, "k"⟩ rfl⟩

/-- C10: a dispatcher call for a key not in the tracker never executes through
a prepared statement: it falls back ad-hoc, counts a miss, and — when the
query is within bounds and the tracker has room — inserts a fresh entry with
`hits = 1` that the same call does not use. -/
theorem claim_C10 : ∀ (c : Cache) (ctx : Ctx) (q : String) (m : List (String × StmtEntry)),
    c.stmt = some m → lookupA m q = none → 0 < c.maxPS →
    ((queryContext c ctx q).2 = Outcome.adhoc ∧
     (queryContext c ctx q).1.stats.misses = incU64 c.stats.misses ∧
     (byteLen q ≤ c.maxSqlLen → m.length < c.maxStmt →
        lookupA (((queryContext c ctx q).1.stmt).getD []) q = some ⟨1, none⟩)) := by
  intro c ctx q m hstmt hlook hps
  have hps' : ¬ (c.maxPS = 0) := Nat.pos_iff_ne_zero.mp hps
  by_cases hlen : c.maxSqlLen < byteLen q
  · refine ⟨?_, ?_, fun h1 _ => absurd hlen (Nat.not_lt.mpr h1)⟩
    · simp [queryContext, getPS_skip c q hps' hlen]
    · simp [queryContext, getPS_skip c q hps' hlen]
  · obtain ⟨h1, h2, _, h4, _⟩ := getPS_miss c m q hstmt hlook hps' hlen
    rcases hg : getPS c q with ⟨c1, r⟩
    rw [hg] at h1 h2 h4
    simp only at h1 h2 h4
    subst h1
    have hq : queryContext c ctx q =
        ({ c1 with
           stats := {c1.stats with misses := incU64 c1.stats.misses},
           log := DbAct.adhoc q ctx :: c1.log }, Outcome.adhoc) := by
      simp [queryContext, hg]
    rw [hq]
    refine ⟨rfl, by simp [h2], fun _ hroom => ?_⟩
    simp [h4 hroom, lookupA_append_self m q ⟨1, none⟩ hlook]

theorem claim_C10_witness :
    ((queryContext defaultCache ctx0 "SELECT 1").2 = Outcome.adhoc ∧
     (queryContext defaultCache ctx0 "SELECT 1").1.stats.misses =
       incU64 defaultCache.stats.misses ∧
     (byteLen "SELECT 1" ≤ defaultCache.maxSqlLen →
       List.length ([] : List (String × StmtEntry)) < defaultCache.maxStmt →
       lookupA (((queryContext defaultCache ctx0 "SELECT 1").1.stmt).getD [])
         "SELECT 1" = some ⟨1, none⟩)) :=
  claim_C10 defaultCache ctx0 "SELECT 1" [] rfl rfl (by decide)

theorem scanCandidates_fst (l : List (String × StmtEntry)) :
    ∀ acc : Option (String × StmtEntry) × Option (String × StmtEntry),
      (l.foldl (fun a p => (vStep a.1 p, rStep a.2 p)) acc).1 = l.foldl vStep acc.1 := by
  induction l with
  | nil => intro acc; rfl
  | cons p r ih =>
    intro acc
    simp only [List.foldl_cons, ih]

theorem scanCandidates_snd (l : List (String × StmtEntry)) :
    ∀ acc : Option (String × StmtEntry) × Option (String × StmtEntry),
      (l.foldl (fun a p => (vStep a.1 p, rStep a.2 p)) acc).2 = l.foldl rStep acc.2 := by
  induction l with
  | nil => intro acc; rfl
  | cons p r ih =>
    intro acc
    simp only [List.foldl_cons, ih]

theorem vfold_le_acc (l : List (String × StmtEntry)) :
    ∀ a : String × StmtEntry, ∃ w : String × StmtEntry,
      l.foldl vStep (some a) = some w ∧ w.2.hit ≤ a.2.hit := by
  induction l with
  | nil => intro a; exact ⟨a, rfl, Nat.le_refl _⟩
  | cons p r ih =>
    intro a
    by_cases hp : p.2.ps.isSome
    · by_cases hlt : p.2.hit < a.2.hit
      · obtain ⟨w, hw, hle⟩ := ih p
        exact ⟨w, by simpa [vStep, hp, hlt] using hw, Nat.le_trans hle (Nat.le_of_lt hlt)⟩
      · obtain ⟨w, hw, hle⟩ := ih a
        exact ⟨w, by simpa [vStep, hp, hlt] using hw, hle⟩
    · obtain ⟨w, hw, hle⟩ := ih a
      exact ⟨w, by simpa [vStep, hp] using hw, hle⟩

theorem vfold_min (l : List (String × StmtEntry)) :
    ∀ (acc : Option (String × StmtEntry)) (w : String × StmtEntry),
      l.foldl vStep acc = some w →
      ∀ e ∈ l, e.2.ps.isSome → w.2.hit ≤ e.2.hit := by
  induction l with
  | nil => intro acc w _ e he; exact absurd he (List.not_mem_nil e)
  | cons p r ih =>
    intro acc w hw e he hprep
    rcases List.mem_cons.mp he with he1 | he2
    · subst he1
      -- the accumulator right after consuming e has hit ≤ e.2.hit, and the
      -- fold only decreases it
      have hstep : ∃ a, vStep acc e = some a ∧ a.2.hit ≤ e.2.hit := by
        cases acc with
        | none => exact ⟨e, by simp [vStep, hprep], Nat.le_refl _⟩
        | some v =>
          by_cases hlt : e.2.hit < v.2.hit
          · exact ⟨e, by simp [vStep, hprep, hlt], Nat.le_refl _⟩
          · exact ⟨v, by simp [vStep, hprep, hlt], Nat.not_lt.mp hlt⟩
      obtain ⟨a, ha, hale⟩ := hstep
      obtain ⟨w', hw', hle'⟩ := vfold_le_acc r a
      rw [List.foldl_cons, ha, hw'] at hw
      cases hw
      exact Nat.le_trans hle' hale
    · exact ih (vStep acc p) w (by simpa using hw) e he2 hprep

theorem vfold_mem (l : List (String × StmtEntry)) :
    ∀ (acc : Option (String × StmtEntry)) (w : String × StmtEntry),
      l.foldl vStep acc = some w →
      acc = some w ∨ (w ∈ l ∧ w.2.ps.isSome) := by
  induction l with
  | nil => intro acc w hw; exact Or.inl hw
  | cons p r ih =>
    intro acc w hw
    rcases ih (vStep acc p) w (by simpa using hw) with h | h
    · by_cases hp : p.2.ps.isSome
      · cases acc with
        | none =>
          simp only [vStep, hp, if_true, Option.some.injEq] at h
          exact Or.inr ⟨by rw [← h]; exact List.mem_cons_self p r,
            by rw [← h]; exact hp⟩
        | some v =>
          by_cases hlt : p.2.hit < v.2.hit
          · simp only [vStep, hp, if_true, hlt, Option.some.injEq] at h
            exact Or.inr ⟨by rw [← h]; exact List.mem_cons_self p r,
              by rw [← h]; exact hp⟩
          · simp only [vStep, hp, if_true, hlt, if_false] at h
            exact Or.inl h
      · simp only [vStep, hp, Bool.false_eq_true, if_false] at h
        exact Or.inl h
    · exact Or.inr ⟨List.mem_cons_of_mem p h.1, h.2⟩

theorem rfold_ge_acc (l : List (String × StmtEntry)) :
    ∀ a : String × StmtEntry, ∃ w : String × StmtEntry,
      l.foldl rStep (some a) = some w ∧ a.2.hit ≤ w.2.hit := by
  induction l with
  | nil => intro a; exact ⟨a, rfl, Nat.le_refl _⟩
  | cons p r ih =>
    intro a
    by_cases hp : p.2.ps.isSome
    · obtain ⟨w, hw, hle⟩ := ih a
      exact ⟨w, by simpa [rStep, hp] using hw, hle⟩
    · by_cases hlt : a.2.hit < p.2.hit
      · obtain ⟨w, hw, hle⟩ := ih p
        exact ⟨w, by simpa [rStep, hp, hlt] using hw, Nat.le_trans (Nat.le_of_lt hlt) hle⟩
      · obtain ⟨w, hw, hle⟩ := ih a
        exact ⟨w, by simpa [rStep, hp, hlt] using hw, hle⟩

theorem rfold_max (l : List (String × StmtEntry)) :
    ∀ (acc : Option (String × StmtEntry)) (w : String × StmtEntry),
      l.foldl rStep acc = some w →
      ∀ e ∈ l, e.2.ps = none → e.2.hit ≤ w.2.hit := by
  induction l with
  | nil => intro acc w _ e he; exact absurd he (List.not_mem_nil e)
  | cons p r ih =>
    intro acc w hw e he habs
    rcases List.mem_cons.mp he with he1 | he2
    · subst he1
      have habs' : ¬ e.2.ps.isSome = true := by simp [habs]
      have hstep : ∃ a, rStep acc e = some a ∧ e.2.hit ≤ a.2.hit := by
        cases acc with
        | none => exact ⟨e, by simp [rStep, habs'], Nat.le_refl _⟩
        | some v =>
          by_cases hlt : v.2.hit < e.2.hit
          · exact ⟨e, by simp [rStep, habs', hlt], Nat.le_refl _⟩
          · exact ⟨v, by simp [rStep, habs', hlt], Nat.not_lt.mp hlt⟩
      obtain ⟨a, ha, hale⟩ := hstep
      obtain ⟨w', hw', hle'⟩ := rfold_ge_acc r a
      rw [List.foldl_cons, ha, hw'] at hw
      cases hw
      exact Nat.le_trans hale hle'
    · exact ih (rStep acc p) w (by simpa using hw) e he2 habs

theorem rfold_mem (l : List (String × StmtEntry)) :
    ∀ (acc : Option (String × StmtEntry)) (w : String × StmtEntry),
      l.foldl rStep acc = some w →
      acc = some w ∨ (w ∈ l ∧ w.2.ps = none) := by
  induction l with
  | nil => intro acc w hw; exact Or.inl hw
  | cons p r ih =>
    intro acc w hw
    rcases ih (rStep acc p) w (by simpa using hw) with h | h
    · by_cases hp : p.2.ps.isSome
      · simp only [rStep, hp, if_true] at h
        exact Or.inl h
      · have hpn : p.2.ps = none := Option.not_isSome_iff_eq_none.mp (by simpa using hp)
        cases acc with
        | none =>
          simp only [rStep, hp, Bool.false_eq_true, if_false, Option.some.injEq] at h
          exact Or.inr ⟨by rw [← h]; exact List.mem_cons_self p r,
            by rw [← h]; exact hpn⟩
        | some v =>
          by_cases hlt : v.2.hit < p.2.hit
          · simp only [rStep, hp, Bool.false_eq_true, if_false, hlt, if_true,
              Option.some.injEq] at h
            exact Or.inr ⟨by rw [← h]; exact List.mem_cons_self p r,
              by rw [← h]; exact hpn⟩
          · simp only [rStep, hp, Bool.false_eq_true, if_false, hlt] at h
            exact Or.inl h
    · exact Or.inr ⟨List.mem_cons_of_mem p h.1, h.2⟩

theorem scanCandidates_eq_fst (l : List (String × StmtEntry)) :
    (scanCandidates l).1 = l.foldl vStep none :=
  scanCandidates_fst l (none, none)

theorem scanCandidates_eq_snd (l : List (String × StmtEntry)) :
    (scanCandidates l).2 = l.foldl rStep none :=
  scanCandidates_snd l (none, none)

/-- C6: in every Promoter cycle the scan's victim is a prepared entry of the
tracker with minimal `hits` and its replacement an absent entry with maximal
`hits` (first such in scan order on ties); and when (a) a victim exists with
positive `hits` but no replacement, or (b) both exist and the victim's `hits`
is at least the replacement's, `getCandidates` suppresses both picks, so the
eviction and preparation phases (which act only on a returned candidate) do
nothing. -/
theorem claim_C6 : ∀ l : List (String × StmtEntry),
    (∀ v : String × StmtEntry, (getCandidates l).1 = some v →
      v ∈ l ∧ v.2.ps.isSome ∧ ∀ e ∈ l, e.2.ps.isSome → v.2.hit ≤ e.2.hit) ∧
    (∀ r : String × StmtEntry, (getCandidates l).2 = some r →
      r ∈ l ∧ r.2.ps = none ∧ ∀ e ∈ l, e.2.ps = none → e.2.hit ≤ r.2.hit) ∧
    (∀ v : String × StmtEntry, scanCandidates l = (some v, none) → 0 < v.2.hit →
      getCandidates l = (none, none)) ∧
    (∀ v r : String × StmtEntry, scanCandidates l = (some v, some r) →
      r.2.hit ≤ v.2.hit → getCandidates l = (none, none)) ∧
    (∀ c : Cache, evictPhase c none = c) ∧
    (∀ (p : String → Bool) (c : Cache), preparePhase p c none = c) := by
  intro l
  have hv_of : ∀ v : String × StmtEntry, (scanCandidates l).1 = some v →
      v ∈ l ∧ v.2.ps.isSome ∧ ∀ e ∈ l, e.2.ps.isSome → v.2.hit ≤ e.2.hit := by
    intro v hv
    rw [scanCandidates_eq_fst] at hv
    rcases vfold_mem l none v hv with h | h
    · exact absurd h (by simp)
    · exact ⟨h.1, h.2, vfold_min l none v hv⟩
  have hr_of : ∀ r : String × StmtEntry, (scanCandidates l).2 = some r →
      r ∈ l ∧ r.2.ps = none ∧ ∀ e ∈ l, e.2.ps = none → e.2.hit ≤ r.2.hit := by
    intro r hr
    rw [scanCandidates_eq_snd] at hr
    rcases rfold_mem l none r hr with h | h
    · exact absurd h (by simp)
    · exact ⟨h.1, h.2, rfold_max l none r hr⟩
  have hpass : ∀ x : String × StmtEntry,
      (getCandidates l).1 = some x ∨ (getCandidates l).2 = some x →
      ((getCandidates l).1 = some x → (scanCandidates l).1 = some x) ∧
      ((getCandidates l).2 = some x → (scanCandidates l).2 = some x) := by
    intro x _
    unfold getCandidates
    rcases hsc : scanCandidates l with ⟨ov, or⟩
    rcases ov with _ | v' <;> rcases or with _ | r'
    · exact ⟨fun h => by simp at h, fun h => by simp at h⟩
    · exact ⟨fun h => by simp at h, fun h => by simpa using h⟩
    · by_cases hpos : 0 < v'.2.hit
      · simp [hpos]
      · simp [hpos]
    · by_cases hle : r'.2.hit ≤ v'.2.hit
      · simp [hle]
      · simp [hle]
  refine ⟨?_, ?_, ?_, ?_, fun c => rfl, fun p c => rfl⟩
  · intro v hv
    exact hv_of v (((hpass v) (Or.inl hv)).1 hv)
  · intro r hr
    exact hr_of r (((hpass r) (Or.inr hr)).2 hr)
  · intro v hsc hpos
    simp [getCandidates, hsc, hpos, Nat.pos_iff_ne_zero.mp hpos]
  · intro v r hsc hle
    simp [getCandidates, hsc, hle]

theorem claim_C6_witness :
    ((("a", (⟨1, some 0⟩ : StmtEntry)) ∈ l6 ∧ (⟨1, some 0⟩ : StmtEntry).ps.isSome ∧
        ∀ e ∈ l6, e.2.ps.isSome → (1 : Nat) ≤ e.2.hit) ∧
     (("b", (⟨5, none⟩ : StmtEntry)) ∈ l6 ∧ (⟨5, none⟩ : StmtEntry).ps = none ∧
        ∀ e ∈ l6, e.2.ps = none → e.2.hit ≤ (5 : Nat)) ∧
     getCandidates l8 = (none, none) ∧
     getCandidates l7 = (none, none)) :=
  ⟨(claim_C6 l6).1 ("a", ⟨1, some 0⟩) rfl,
   (claim_C6 l6).2.1 ("b", ⟨5, none⟩) rfl,
   (claim_C6 l8).2.2.1 ("a", ⟨2, some 0⟩) rfl (by decide),
   (claim_C6 l7).2.2.2.1 ("a", ⟨5, some 0⟩) ("b", ⟨1, none⟩) rfl (by decide)⟩

theorem updateHits_log (c : Cache) : (updateHits c).log = c.log := rfl

theorem dropStmts_log (c : Cache) : (dropStmts c).log = c.log := by
  cases hs : c.stmt with
  | none => simp [dropStmts, hs]
  | some m =>
    by_cases hlt : m.length < c.maxStmt / 2
    · simp [dropStmts, hs, hlt]
    · simp [dropStmts, hs, hlt]

theorem evictPhase_log (c : Cache) (v : Option (String × StmtEntry)) :
    ∀ a ∈ (evictPhase c v).log, a ∈ c.log ∨ ∃ id, a = DbAct.closePS id := by
  intro a ha
  rcases v with _ | ⟨vk, ve⟩
  · exact Or.inl ha
  · by_cases hcnt : c.maxPS ≤ c.psCount
    · cases hlk : (lookupA (c.stmt.getD []) vk).bind (fun x => x.ps) with
      | none =>
        simp only [evictPhase, hcnt, if_true, hlk] at ha
        exact Or.inl ha
      | some id =>
        simp only [evictPhase, hcnt, if_true, hlk, List.mem_cons] at ha
        rcases ha with h | h
        · exact Or.inr ⟨_, h⟩
        · exact Or.inl h
    · simp only [evictPhase, hcnt, if_false] at ha
      exact Or.inl ha

theorem preparePhase_log (p : String → Bool) (c : Cache)
    (r : Option (String × StmtEntry)) :
    ∀ a ∈ (preparePhase p c r).log,
      a ∈ c.log ∨ ∃ q ok, a = DbAct.prepare q (Ctx.timeout 3) ok := by
  intro a ha
  rcases r with _ | ⟨rk, re⟩
  · exact Or.inl ha
  · by_cases hcnt : c.psCount < c.maxPS
    · by_cases hok : p rk
      · simp only [preparePhase, hcnt, if_true, hok, List.mem_cons] at ha
        rcases ha with h | h
        · exact Or.inr ⟨_, _, h⟩
        · exact Or.inl h
      · simp only [preparePhase, hcnt, if_true] at ha
        rw [if_neg hok] at ha
        simp only [List.mem_cons] at ha
        rcases ha with h | h
        · exact Or.inr ⟨_, _, h⟩
        · exact Or.inl h
    · simp only [preparePhase, hcnt, if_false] at ha
      exact Or.inl ha

theorem wrk_log (p : String → Bool) (c : Cache) :
    ∀ a ∈ (wrk p c).log, a ∈ c.log ∨ (∃ id, a = DbAct.closePS id) ∨
      ∃ q ok, a = DbAct.prepare q (Ctx.timeout 3) ok := by
  intro a ha
  unfold wrk at ha
  rcases hgc : getCandidates (c.stmt.getD []) with ⟨v, r⟩
  rw [hgc] at ha
  rw [dropStmts_log, updateHits_log] at ha
  rcases preparePhase_log p (evictPhase c v) r a ha with h | h
  · rcases evictPhase_log c v a h with h2 | h2
    · exact Or.inl h2
    · exact Or.inr (Or.inl h2)
  · exact Or.inr (Or.inr h)

/-- C7: a failed Prepare is invisible — the prepare phase leaves `psCount`,
the `Prepared` statistic and the tracker unchanged (the worker returns
normally, so no error can reach a dispatcher caller) — and every Prepare the
worker ever issues carries a fresh 3-second deadline token, never a caller's
token. -/
theorem claim_C7 : ∀ (p : String → Bool) (c : Cache) (k : String) (e : StmtEntry),
    (p k = false →
      (preparePhase p c (some (k, e))).psCount = c.psCount ∧
      (preparePhase p c (some (k, e))).stats.prepared = c.stats.prepared ∧
      (preparePhase p c (some (k, e))).stmt = c.stmt) ∧
    (∀ (q : String) (ctx : Ctx) (ok : Bool),
      DbAct.prepare q ctx ok ∈ (wrk p c).log → DbAct.prepare q ctx ok ∉ c.log →
      ctx = Ctx.timeout 3 ∧ ∀ i : Nat, ctx ≠ Ctx.caller i) := by
  intro p c k e
  constructor
  · intro hfail
    by_cases hcnt : c.psCount < c.maxPS
    · simp [preparePhase, hcnt, hfail]
    · simp [preparePhase, hcnt]
  · intro q ctx ok hmem hnot
    rcases wrk_log p c (DbAct.prepare q ctx ok) hmem with h | h | h
    · exact absurd h hnot
    · obtain ⟨id, hid⟩ := h
      exact absurd hid (by simp)
    · obtain ⟨q', ok', heq⟩ := h
      simp only [DbAct.prepare.injEq] at heq
      refine ⟨heq.2.1, fun i => ?_⟩
      rw [heq.2.1]
      simp

theorem claim_C7_witness :
    (preparePhase pNone defaultCache (some ("x", ⟨1, none⟩))).psCount = defaultCache.psCount ∧
    (preparePhase pNone defaultCache (some ("x", ⟨1, none⟩))).stats.prepared =
      defaultCache.stats.prepared ∧
    (preparePhase pNone defaultCache (some ("x", ⟨1, none⟩))).stmt = defaultCache.stmt :=
  (claim_C7 pNone defaultCache "x" ⟨1, none⟩).1 rfl

theorem applyOpt_ok_iff (c : Cache) (o : CacheOpt) :
    (∃ c', applyOpt c o = Except.ok c') ↔ OptInRange o := by
  cases o with
  | withMaxPreparedStmt m =>
    by_cases h1 : 4096 < m
    · simp [applyOpt, h1, OptInRange]
    · by_cases h2 : m ≤ 0
      · simp [applyOpt, h1, h2, OptInRange]
        omega
      · simp [applyOpt, h1, h2, OptInRange]
        omega
  | withMaxStmt m =>
    by_cases h1 : 65536 < m
    · simp [applyOpt, h1, OptInRange]
    · by_cases h2 : m < 128
      · simp [applyOpt, h1, h2, OptInRange]
      · simp [applyOpt, h1, h2, OptInRange]
        omega
  | withMaxQueryLen m =>
    by_cases h1 : 1048576 < m
    · simp [applyOpt, h1, OptInRange]
    · by_cases h2 : m < 32
      · simp [applyOpt, h1, h2, OptInRange]
      · simp [applyOpt, h1, h2, OptInRange]
        omega

theorem applyOpt_error_of_not (c : Cache) (o : CacheOpt) (h : ¬ OptInRange o) :
    ∃ msg, applyOpt c o = Except.error msg := by
  cases hap : applyOpt c o with
  | error msg => exact ⟨msg, rfl⟩
  | ok c' => exact absurd ((applyOpt_ok_iff c o).mp ⟨c', hap⟩) h

theorem foldlM_applyOpt_ok (opts : List CacheOpt) :
    ∀ c : Cache, (∃ c', opts.foldlM applyOpt c = Except.ok c') ↔
      ∀ o ∈ opts, OptInRange o := by
  induction opts with
  | nil =>
    intro c
    exact ⟨fun _ => by simp, fun _ => ⟨c, rfl⟩⟩
  | cons o r ih =>
    intro c
    cases hap : applyOpt c o with
    | error msg =>
      have hno : ¬ OptInRange o := by
        intro hr
        obtain ⟨c', hc'⟩ := (applyOpt_ok_iff c o).mpr hr
        rw [hap] at hc'
        exact Except.noConfusion hc'
      have hred : (o :: r).foldlM applyOpt c = Except.error msg := by
        rw [List.foldlM_cons, hap]
        rfl
      rw [hred]
      constructor
      · intro ⟨c', hc'⟩
        exact Except.noConfusion hc'
      · intro hall
        exact absurd (hall o (List.mem_cons_self o r)) hno
    | ok c1 =>
      have hyes : OptInRange o := (applyOpt_ok_iff c o).mp ⟨c1, hap⟩
      have hred : (o :: r).foldlM applyOpt c = r.foldlM applyOpt c1 := by
        rw [List.foldlM_cons, hap]
        rfl
      rw [hred, ih c1]
      constructor
      · intro hall o' ho'
        rcases List.mem_cons.mp ho' with h | h
        · subst h; exact hyes
        · exact hall o' h
      · intro hall o' ho'
        exact hall o' (List.mem_cons_of_mem o ho')

/-- C8: construction succeeds exactly when every supplied option is inside its
inclusive validation range (`maxPreparedStmt` in [1, 4096], `maxStmt` in
[128, 65536], `maxQueryLen` in [32, 1048576]); otherwise it returns an error
and no cache. -/
theorem claim_C8 : ∀ opts : List CacheOpt,
    ((∃ c, mkNew opts = Except.ok c) ↔ ∀ o ∈ opts, OptInRange o) ∧
    (¬ (∀ o ∈ opts, OptInRange o) → ∃ msg, mkNew opts = Except.error msg) := by
  intro opts
  have h := foldlM_applyOpt_ok opts defaultCache
  refine ⟨h, fun hno => ?_⟩
  cases hm : mkNew opts with
  | error msg => exact ⟨msg, rfl⟩
  | ok c => exact absurd (h.mp ⟨c, hm⟩) hno

theorem claim_C8_witness :
    ((∃ c, mkNew [CacheOpt.withMaxPreparedStmt 1, CacheOpt.withMaxPreparedStmt 4096,
        CacheOpt.withMaxStmt 128, CacheOpt.withMaxStmt 65536,
        CacheOpt.withMaxQueryLen 32, CacheOpt.withMaxQueryLen 1048576] = Except.ok c) ∧
     ∃ msg, mkNew [CacheOpt.withMaxPreparedStmt 4097] = Except.error msg) :=
  ⟨(claim_C8 _).1.mpr (by decide),
   (claim_C8 [CacheOpt.withMaxPreparedStmt 4097]).2 (by decide)⟩
